import Mathlib

/-!
Shallow embedding of the grid-based position-manager strategies of this
repository.  Two variants carry all the claimed behaviour:

* `Full`   — the indicator-driven variant (file `a2425607-.../main.py`):
  dynamic parameters from RSI/ATR/SMA/volume, risk budget, daily caps,
  per-direction caps, grid gate, no re-anchoring.
* `Simple` — the fixed-parameter variant (file `406267a5-.../main.py`):
  fixed distances, grid gate, take-profit re-anchoring past a threshold.

All Python floats are modelled as exact rationals (`ℚ`); Python dictionaries
holding one position become the `Position` structure; a Python exception
(ZeroDivisionError) is modelled by `Option`, `none` meaning the call raises.
Indicator series (RSI/ATR/SMA) come from the external `surmount` library and
are therefore inputs of a tick, not re-implemented; the in-repo
`calculate_average_volume` is embedded.
-/

namespace Core

/-- Position direction; the source uses the strings "bullish" / "bearish". -/
inductive Dir where
  | bullish
  | bearish
deriving DecidableEq, Repr

/-- One open grid leg, as stored in `self.active_positions`
(dict keys `price`, `allocation`, `type`, `take_profit`, `stop_loss`). -/
structure Position where
  price : ℚ
  allocation : ℚ
  type : Dir
  take_profit : ℚ
  stop_loss : ℚ
deriving DecidableEq, Repr

/-- Which branch of the exit `elif` chain fired. -/
inductive ExitKind where
  | takeProfit
  | stopLoss
deriving DecidableEq, Repr

/-- The `elif` chain of `manage_existing_positions` for a single position:
take-profit checks come first, then stop-loss checks, each guarded by the
position's direction.  `none` means the position stays open. -/
def exitReason (pos : Position) (high_price low_price : ℚ) : Option ExitKind :=
  if pos.type = .bullish ∧ high_price ≥ pos.take_profit then some .takeProfit
  else if pos.type = .bearish ∧ low_price ≤ pos.take_profit then some .takeProfit
  else if pos.type = .bullish ∧ low_price ≤ pos.stop_loss then some .stopLoss
  else if pos.type = .bearish ∧ high_price ≥ pos.stop_loss then some .stopLoss
  else none

/-- Whether the exit scan closes the position this bar. -/
def closes (pos : Position) (high_price low_price : ℚ) : Bool :=
  (exitReason pos high_price low_price).isSome

/-- `manage_existing_positions` (identical in both variants): collect every
triggered position into `positions_to_remove`, accumulate the (negative)
allocation change, then delete each collected position from the list by
value (`list.remove`).  Returns the surviving list and the allocation change.
The `current_price` argument is passed by the source but unused. -/
def manage_existing_positions (positions : List Position)
    (current_price high_price low_price : ℚ) : List Position × ℚ :=
  let positions_to_remove := positions.filter (fun p => closes p high_price low_price)
  let allocation_change := -((positions_to_remove.map Position.allocation).sum)
  (positions_to_remove.foldl (fun l p => l.erase p) positions, allocation_change)

end Core

namespace Simple

open Core

/-- Constants of the fixed-parameter variant's `__init__`. -/
def max_positions : ℕ := 17
def initial_allocation : ℚ := 1/100
def tp_distance : ℚ := 8/10
def sl_distance : ℚ := 20
def grid_step : ℚ := 1
def adjustment_threshold : ℕ := 6
def tp_adjustment_percent : ℚ := 7/10

/-- One OHLCV bar of the tracked ticker (`date`, `open` as `opn`). -/
structure Bar where
  date : String
  opn : ℚ
  high : ℚ
  low : ℚ
  close : ℚ
deriving DecidableEq, Repr

def defaultBar : Bar := ⟨"", 0, 0, 0, 0⟩

/-- Mutable strategy state of the fixed-parameter variant. -/
structure State where
  active_positions : List Position
  total_allocation : ℚ
  last_processed_date : Option String
deriving DecidableEq, Repr

def initState : State := ⟨[], 0, none⟩

/-- `determine_trend`: bullish iff close strictly exceeds open. -/
def determine_trend (open_price close_price : ℚ) : Dir :=
  if close_price > open_price then .bullish else .bearish

/-- `adjust_take_profits`: when strictly more than `adjustment_threshold`
positions are open, overwrite every position's take-profit with one shared
value anchored at the last position's price, signed by the `trend` argument
passed by the caller (the trend of the entry that triggered the call). -/
def adjust_take_profits (positions : List Position) (trend : Dir) : List Position :=
  if positions.length ≤ adjustment_threshold then positions
  else
    match positions.head?, positions.getLast? with
    | some first_pos, some last_pos =>
      let price_diff := |last_pos.price - first_pos.price|
      let adjusted_move := price_diff * tp_adjustment_percent
      let new_tp := if trend = .bullish then last_pos.price + adjusted_move
        else last_pos.price - adjusted_move
      positions.map (fun p => { p with take_profit := new_tp })
    | _, _ => positions

/-- `should_open_new_position`: the grid-spacing gate.  An empty ledger always
passes; otherwise the close is compared against the **last** position's entry
price (its direction is not consulted). -/
def should_open_new_position (positions : List Position) (current_price : ℚ)
    (trend : Dir) : Bool :=
  match positions.getLast? with
  | none => true
  | some last_pos =>
    if trend = .bullish then decide (current_price < last_pos.price - grid_step)
    else decide (current_price > last_pos.price + grid_step)

/-- `calculate_position_allocation`: append a new leg (unless the total cap is
reached), re-anchor take-profits when the count passes the threshold, and
return the allocation to add to the exposure. -/
def calculate_position_allocation (positions : List Position) (current_price : ℚ)
    (trend : Dir) : List Position × ℚ :=
  if positions.length ≥ max_positions then (positions, 0)
  else
    let position : Position :=
      ⟨current_price, initial_allocation, trend,
        (if trend = .bullish then current_price + tp_distance else current_price - tp_distance),
        (if trend = .bullish then current_price - sl_distance else current_price + sl_distance)⟩
    let ps := positions ++ [position]
    let ps := if ps.length > adjustment_threshold then adjust_take_profits ps trend else ps
    (ps, initial_allocation)

/-- `run` of the fixed-parameter variant: dedup on bar date, exits, trend,
grid gate, entry (with re-anchoring), then record the processed date. -/
def run (s : State) (ohlcv : List Bar) : State × ℚ :=
  if ohlcv.length < 2 then (s, s.total_allocation)
  else
    let td := ohlcv.getLastD defaultBar
    if some td.date = s.last_processed_date then (s, s.total_allocation)
    else
      let mep := manage_existing_positions s.active_positions td.close td.high td.low
      let positions1 := mep.1
      let ta1 := s.total_allocation + mep.2
      let trend := determine_trend td.opn td.close
      let step :=
        if should_open_new_position positions1 td.close trend then
          calculate_position_allocation positions1 td.close trend
        else (positions1, 0)
      ({ active_positions := step.1, total_allocation := ta1 + step.2,
         last_processed_date := some td.date }, ta1 + step.2)

/-- Reachable states of the fixed-parameter engine: the freshly constructed
state, closed under processing ticks. -/
inductive Reachable : State → Prop where
  | init : Reachable initState
  | step {s s' : State} {ohlcv : List Bar} {out : ℚ} :
      Reachable s → run s ohlcv = (s', out) → Reachable s'

end Simple

namespace Full

open Core

/-- Constants of the indicator-driven variant's `__init__`. -/
def rsi_period : ℕ := 12
def atr_period : ℕ := 10
def vol_period : ℕ := 15
def sma_period : ℕ := 20
def short_sma_period : ℕ := 10
def max_positions : ℕ := 17
def max_positions_per_direction : ℕ := 10
def base_allocation : ℚ := 1
def max_allocation : ℚ := 2
def max_daily_positions : ℕ := 3
def max_total_risk : ℚ := 5/100
def grid_multiplier : ℚ := 4/10
def tp_multiplier_normal : ℚ := 9/10
def tp_multiplier_overbought : ℚ := 6/10
def tp_multiplier_oversold : ℚ := 13/10
def sl_multiplier : ℚ := 25/10
def volume_multiplier : ℚ := 13/10

/-- `max(rsi_period, atr_period, vol_period, sma_period, short_sma_period)`. -/
def required_periods : ℕ :=
  max rsi_period (max atr_period (max vol_period (max sma_period short_sma_period)))

/-- One OHLCV bar of the tracked ticker (`date`, `open` as `opn`, `high`,
`low`, `close`, `volume`). -/
structure Bar where
  date : String
  opn : ℚ
  high : ℚ
  low : ℚ
  close : ℚ
  volume : ℚ
deriving DecidableEq, Repr

def defaultBar : Bar := ⟨"", 0, 0, 0, 0, 0⟩

/-- One call of `run` consumes the bar history plus the indicator series the
external `surmount.technical_indicators` library would compute on it; the
series are inputs because that library is not part of this repository. -/
structure Tick where
  ohlcv : List Bar
  rsi : List ℚ
  atr : List ℚ
  sma : List ℚ
  short_sma : List ℚ
deriving DecidableEq, Repr

/-- The bar `ohlcv[-1]` a tick is judged on. -/
def tickBar (t : Tick) : Bar := t.ohlcv.getLastD defaultBar

/-- `calculate_average_volume`: mean volume of the last `period` bars, `None`
when the history is shorter than `period`. -/
def calculate_average_volume (ohlcv : List Bar) (period : ℕ) : Option ℚ :=
  if ohlcv.length < period then none
  else some ((((ohlcv.drop (ohlcv.length - period)).map Bar.volume).sum) / (period : ℚ))

/-- The dict returned by `calculate_dynamic_parameters`. -/
structure Params where
  grid_step : ℚ
  tp_distance : ℚ
  sl_distance : ℚ
  allocation : ℚ
  rsi : ℚ
  atr : ℚ
  sma : ℚ
  short_sma : ℚ
  volatility : ℚ
  avg_volume : ℚ
deriving DecidableEq, Repr

/-- `calculate_dynamic_parameters`.  `none` models the source returning
`None`: either the truthiness check `not all([rsi, atr, avg_volume, sma,
short_sma])` fails (an empty series, a missing average volume, or an average
volume of exactly `0`, which is falsy in Python), or `close == 0`, in which
case the division `atr / close` raises and the surrounding `except` returns
`None`. -/
def calculate_dynamic_parameters (ticker_data : Bar) (t : Tick) : Option Params :=
  let avg_volume? := calculate_average_volume t.ohlcv vol_period
  if t.rsi = [] ∨ t.atr = [] ∨ avg_volume? = none ∨ avg_volume? = some 0 ∨
      t.sma = [] ∨ t.short_sma = [] then none
  else if ticker_data.close = 0 then none
  else
    let current_rsi := t.rsi.getLastD 0
    let current_atr := t.atr.getLastD 0
    let current_sma := t.sma.getLastD 0
    let current_short_sma := t.short_sma.getLastD 0
    let avg_volume := avg_volume?.getD 0
    let volatility_factor := min (max (current_atr / ticker_data.close) (1/1000)) (2/100)
    let adjusted_grid := grid_multiplier * (1 + volatility_factor)
    let grid_step := current_atr * adjusted_grid
    let tp_distance :=
      if current_rsi > 70 then current_atr * tp_multiplier_overbought * (1 - volatility_factor)
      else if current_rsi < 30 then current_atr * tp_multiplier_oversold * (1 + volatility_factor)
      else current_atr * tp_multiplier_normal
    let sl_distance := current_atr * sl_multiplier * (1 + volatility_factor)
    let allocation :=
      if ticker_data.volume > avg_volume * (12/10) then
        min (base_allocation * volume_multiplier * (1 - volatility_factor)) max_allocation
      else base_allocation * (1 - volatility_factor)
    some ⟨grid_step, tp_distance, sl_distance, allocation, current_rsi, current_atr,
      current_sma, current_short_sma, volatility_factor, avg_volume⟩

/-- `determine_trend` with confirmation gate; `none` models returning `None`
for a weak trend. -/
def determine_trend (open_price close_price : ℚ) (params : Params) : Option Dir :=
  let price_trend : Dir := if close_price > open_price then .bullish else .bearish
  let sma_cross_bullish := params.short_sma > params.sma
  match price_trend with
  | .bullish =>
    if params.rsi < 70 ∧ close_price > params.sma ∧ sma_cross_bullish then some .bullish
    else none
  | .bearish =>
    if params.rsi > 30 ∧ close_price < params.sma ∧ ¬sma_cross_bullish then some .bearish
    else none

/-- `calculate_position_risk`; `none` models the `ZeroDivisionError` that the
source raises when `entry_price == 0`. -/
def calculate_position_risk (entry_price stop_loss allocation : ℚ) : Option ℚ :=
  if entry_price = 0 then none
  else some (|entry_price - stop_loss| * allocation / entry_price)

/-- `self.total_risk = sum(self.calculate_position_risk(...) for pos in
self.active_positions)`, propagating the possible `ZeroDivisionError`. -/
def sumRisks (positions : List Position) : Option ℚ :=
  (positions.mapM (fun p => calculate_position_risk p.price p.stop_loss p.allocation)).map
    List.sum

/-- `count_positions_by_type`. -/
def count_positions_by_type (positions : List Position) (position_type : Dir) : ℕ :=
  (positions.filter (fun p => p.type = position_type)).length

/-- `current_date.split(' ')[0]`: the characters before the first space. -/
def dayChars : List Char → List Char
  | [] => []
  | c :: cs => if c = ' ' then [] else c :: dayChars cs

def dayOf (d : String) : String := ⟨dayChars d.data⟩

/-- Mutable strategy state of the indicator-driven variant. -/
structure State where
  active_positions : List Position
  total_allocation : ℚ
  daily_positions_opened : ℕ
  last_trading_day : Option String
  last_processed_date : Option String
  total_risk : ℚ
deriving DecidableEq, Repr

def initState : State := ⟨[], 0, 0, none, none, 0⟩

/-- `can_add_position`: reset the daily counter when the calendar day changed,
then reject on the daily cap or on the risk budget.  Returns the (possibly
day-reset) state together with the verdict. -/
def can_add_position (s : State) (current_date : String) (position_risk : ℚ) :
    State × Bool :=
  let current_day := dayOf current_date
  let s1 := if some current_day ≠ s.last_trading_day then
      { s with daily_positions_opened := 0, last_trading_day := some current_day }
    else s
  if s1.daily_positions_opened ≥ max_daily_positions then (s1, false)
  else if s1.total_risk + position_risk > max_total_risk then (s1, false)
  else (s1, true)

/-- The inline grid-spacing check of `run` (lines 282-289): pass when the
ledger is empty, else compare the close against the **last** position's entry
price; the last position's direction is not consulted. -/
def should_open_check (positions : List Position) (close : ℚ) (trend : Dir)
    (grid_step : ℚ) : Bool :=
  match positions.getLast? with
  | none => true
  | some last_pos =>
    if trend = .bullish then decide (close < last_pos.price - grid_step)
    else decide (close > last_pos.price + grid_step)

/-- The `if should_open:` block of `run`: append the new leg and patch
exposure, risk and the daily counter, or leave the state alone. -/
def openPosition (s : State) (td : Bar) (params : Params) (trend : Dir)
    (potential_stop position_risk : ℚ) : State :=
  if should_open_check s.active_positions td.close trend params.grid_step then
    { s with
      active_positions := s.active_positions ++
        [⟨td.close, params.allocation, trend,
          (if trend = .bullish then td.close + params.tp_distance
            else td.close - params.tp_distance),
          potential_stop⟩],
      total_allocation := s.total_allocation + params.allocation,
      total_risk := s.total_risk + position_risk,
      daily_positions_opened := s.daily_positions_opened + 1 }
  else s

/-- Line 307 followed by the final return: record the processed date and emit
the exposure. -/
def finishTick (s : State) (current_date : String) : Option (State × ℚ) :=
  some ({ s with last_processed_date := some current_date }, s.total_allocation)

/-- The entry half of `run` (lines 266-305), entered when a trend was
confirmed: total cap, candidate risk, daily/risk budget, per-direction cap,
grid gate, open.  The two budget rejections return without touching
`last_processed_date`. -/
def entry_phase (s : State) (td : Bar) (current_date : String) (params : Params)
    (trend : Dir) : Option (State × ℚ) :=
  if s.active_positions.length < max_positions then
    let potential_stop := if trend = .bullish then td.close - params.sl_distance
      else td.close + params.sl_distance
    match calculate_position_risk td.close potential_stop params.allocation with
    | none => none
    | some position_risk =>
      let ca := can_add_position s current_date position_risk
      if ca.2 = false then some (ca.1, ca.1.total_allocation)
      else if count_positions_by_type ca.1.active_positions trend ≥
          max_positions_per_direction then some (ca.1, ca.1.total_allocation)
      else finishTick (openPosition ca.1 td params trend potential_stop position_risk)
        current_date
  else finishTick s current_date

/-- `run` of the indicator-driven variant.  `none` models an uncaught
`ZeroDivisionError` escaping the call (a position with `price == 0` reaching
a risk computation); every normal return carries the new state and the
emitted aggregate allocation. -/
def run (s : State) (t : Tick) : Option (State × ℚ) :=
  if t.ohlcv.length < required_periods then some (s, s.total_allocation)
  else
    let td := tickBar t
    let current_date := td.date
    if some current_date = s.last_processed_date then some (s, s.total_allocation)
    else
      match calculate_dynamic_parameters td t with
      | none => some (s, s.total_allocation)
      | some params =>
        let mep := manage_existing_positions s.active_positions td.close td.high td.low
        let s1 : State :=
          { s with active_positions := mep.1,
                   total_allocation := s.total_allocation + mep.2 }
        match sumRisks s1.active_positions with
        | none => none
        | some tr =>
          let s2 := { s1 with total_risk := tr }
          match determine_trend td.opn td.close params with
          | none => finishTick s2 current_date
          | some trend => entry_phase s2 td current_date params trend

/-- The post-exit ledger a tick works with (the ledger the entry checks see). -/
def exitLedger (s : State) (t : Tick) : List Position :=
  (manage_existing_positions s.active_positions (tickBar t).close (tickBar t).high
    (tickBar t).low).1

/-- Whether a call of `run` runs to its last line (setting
`last_processed_date`); mirrors `run` branch by branch: the insufficient-data,
duplicate-date, missing-parameter returns and the two entry rejections
(`can_add_position`, per-direction cap) do not reach it, every other completed
path does. -/
def end_reached (s : State) (t : Tick) : Bool :=
  if t.ohlcv.length < required_periods then false
  else
    let td := tickBar t
    if some td.date = s.last_processed_date then false
    else
      match calculate_dynamic_parameters td t with
      | none => false
      | some params =>
        let mep := manage_existing_positions s.active_positions td.close td.high td.low
        let s1 : State :=
          { s with active_positions := mep.1,
                   total_allocation := s.total_allocation + mep.2 }
        match sumRisks s1.active_positions with
        | none => false
        | some tr =>
          let s2 := { s1 with total_risk := tr }
          match determine_trend td.opn td.close params with
          | none => true
          | some trend =>
            if s2.active_positions.length < max_positions then
              let potential_stop := if trend = .bullish then td.close - params.sl_distance
                else td.close + params.sl_distance
              match calculate_position_risk td.close potential_stop params.allocation with
              | none => false
              | some position_risk =>
                let ca := can_add_position s2 td.date position_risk
                if ca.2 = false then false
                else if count_positions_by_type ca.1.active_positions trend ≥
                    max_positions_per_direction then false
                else true
            else true

/-- Whether a call of `run` appends a new position; mirrors `run` branch by
branch down to the grid gate. -/
def opens (s : State) (t : Tick) : Bool :=
  if t.ohlcv.length < required_periods then false
  else
    let td := tickBar t
    if some td.date = s.last_processed_date then false
    else
      match calculate_dynamic_parameters td t with
      | none => false
      | some params =>
        let mep := manage_existing_positions s.active_positions td.close td.high td.low
        let s1 : State :=
          { s with active_positions := mep.1,
                   total_allocation := s.total_allocation + mep.2 }
        match sumRisks s1.active_positions with
        | none => false
        | some tr =>
          let s2 := { s1 with total_risk := tr }
          match determine_trend td.opn td.close params with
          | none => false
          | some trend =>
            if s2.active_positions.length < max_positions then
              let potential_stop := if trend = .bullish then td.close - params.sl_distance
                else td.close + params.sl_distance
              match calculate_position_risk td.close potential_stop params.allocation with
              | none => false
              | some position_risk =>
                let ca := can_add_position s2 td.date position_risk
                if ca.2 = false then false
                else if count_positions_by_type ca.1.active_positions trend ≥
                    max_positions_per_direction then false
                else should_open_check ca.1.active_positions td.close trend params.grid_step
            else false

/-- Reachable states of the indicator-driven engine: the freshly constructed
state, closed under ticks that return normally. -/
inductive Reachable : State → Prop where
  | init : Reachable initState
  | step {s s' : State} {t : Tick} {out : ℚ} :
      Reachable s → run s t = some (s', out) → Reachable s'

end Full

namespace Core

theorem foldl_erase_of_ne {α : Type} [DecidableEq α] (r : List α) (x : α) (t : List α)
    (h : ∀ a ∈ r, a ≠ x) :
    r.foldl (fun l p => l.erase p) (x :: t) = x :: r.foldl (fun l p => l.erase p) t := by
  induction r generalizing t with
  | nil => rfl
  | cons b r ih =>
    have hb : b ≠ x := h b (List.mem_cons_self _ _)
    simp only [List.foldl_cons]
    rw [List.erase_cons_tail (by simpa using fun hxb => hb hxb.symm)]
    exact ih _ (fun a ha => h a (List.mem_cons_of_mem _ ha))

theorem foldl_erase_filter {α : Type} [DecidableEq α] (P : α → Bool) (l : List α) :
    (l.filter P).foldl (fun l p => l.erase p) l = l.filter (fun a => !(P a)) := by
  induction l with
  | nil => rfl
  | cons x t ih =>
    by_cases hx : P x = true
    · rw [List.filter_cons_of_pos hx, List.filter_cons_of_neg (by simp [hx])]
      simpa using ih
    · rw [List.filter_cons_of_neg (by simpa using hx),
        List.filter_cons_of_pos (by simp at hx; simp [hx])]
      rw [foldl_erase_of_ne _ x t]
      · rw [ih]
      · intro a ha hax
        subst hax
        have hP : P a = true := List.of_mem_filter ha
        simp [hP] at hx

theorem sum_map_filter_split {α : Type} (P : α → Bool) (f : α → ℚ) (l : List α) :
    (l.map f).sum = ((l.filter P).map f).sum + ((l.filter (fun a => !(P a))).map f).sum := by
  induction l with
  | nil => simp
  | cons x t ih =>
    by_cases hx : P x = true
    · rw [List.filter_cons_of_pos hx, List.filter_cons_of_neg (by simp [hx])]
      simp only [List.map_cons, List.sum_cons, ih]
      ring
    · rw [List.filter_cons_of_neg (by simpa using hx),
        List.filter_cons_of_pos (by simp at hx; simp [hx])]
      simp only [List.map_cons, List.sum_cons, ih]
      ring

/-- The remove-by-value loop of `manage_existing_positions` leaves exactly the
non-triggered positions, in their original order. -/
theorem manage_eq_filter (positions : List Position) (c h l : ℚ) :
    manage_existing_positions positions c h l =
      (positions.filter (fun p => !(closes p h l)),
       -(((positions.filter (fun p => closes p h l)).map Position.allocation).sum)) := by
  simp only [manage_existing_positions]
  rw [foldl_erase_filter]

/-- Exits are idempotent on a bar: re-scanning the surviving positions with
the same high/low closes nothing. -/
theorem manage_idem (positions : List Position) (c h l : ℚ) :
    manage_existing_positions ((manage_existing_positions positions c h l).1) c h l =
      ((manage_existing_positions positions c h l).1, 0) := by
  rw [manage_eq_filter, manage_eq_filter]
  simp [List.filter_filter]

end Core

namespace Full

open Core

/-- The risk one open position contributes, as a total function (matches
`calculate_position_risk` whenever the entry price is nonzero). -/
def positionRiskVal (p : Position) : ℚ := |p.price - p.stop_loss| * p.allocation / p.price

theorem sumRisks_nil : sumRisks [] = some 0 := rfl

theorem sumRisks_cons (p : Position) (ps : List Position) :
    sumRisks (p :: ps) =
      (calculate_position_risk p.price p.stop_loss p.allocation).bind
        (fun r => (sumRisks ps).map (fun s => r + s)) := by
  simp only [sumRisks, List.mapM_cons]
  cases hr : calculate_position_risk p.price p.stop_loss p.allocation <;>
    cases hs : ps.mapM (fun p => calculate_position_risk p.price p.stop_loss p.allocation) <;>
      simp [hr, hs, Option.bind]

theorem sumRisks_eq_some {ps : List Position} {r : ℚ} (h : sumRisks ps = some r) :
    (∀ p ∈ ps, p.price ≠ 0) ∧ r = (ps.map positionRiskVal).sum := by
  induction ps generalizing r with
  | nil =>
    rw [sumRisks_nil] at h
    obtain rfl := Option.some_inj.mp h
    simp
  | cons p ps ih =>
    rw [sumRisks_cons] at h
    cases hr : calculate_position_risk p.price p.stop_loss p.allocation with
    | none => rw [hr] at h; simp at h
    | some rp =>
      rw [hr] at h
      cases hs : sumRisks ps with
      | none => rw [hs] at h; simp at h
      | some rs =>
        rw [hs] at h
        simp at h
        obtain ⟨hne, hsum⟩ := ih hs
        have hp0 : p.price ≠ 0 := by
          intro h0
          simp [calculate_position_risk, h0] at hr
        have hrp : rp = positionRiskVal p := by
          simp only [calculate_position_risk, if_neg hp0, Option.some_inj] at hr
          simp [positionRiskVal, ← hr]
        constructor
        · intro q hq
          rcases List.mem_cons.mp hq with rfl | hq
          · exact hp0
          · exact hne q hq
        · simp [List.map_cons, List.sum_cons, ← h, hrp, hsum]

theorem sumRisks_of_prices_ne {ps : List Position} (h : ∀ p ∈ ps, p.price ≠ 0) :
    sumRisks ps = some ((ps.map positionRiskVal).sum) := by
  induction ps with
  | nil => simp [sumRisks_nil]
  | cons p ps ih =>
    rw [sumRisks_cons]
    have hp : p.price ≠ 0 := h p (List.mem_cons_self _ _)
    rw [ih (fun q hq => h q (List.mem_cons_of_mem _ hq))]
    simp [calculate_position_risk, hp, positionRiskVal]

theorem sumRisks_none_of_zero {ps : List Position} {p : Position}
    (hmem : p ∈ ps) (h0 : p.price = 0) : sumRisks ps = none := by
  induction ps with
  | nil => simp at hmem
  | cons q ps ih =>
    rw [sumRisks_cons]
    rcases List.mem_cons.mp hmem with rfl | hmem
    · simp [calculate_position_risk, h0]
    · rw [ih hmem]
      cases calculate_position_risk q.price q.stop_loss q.allocation <;> simp

/-- The state `can_add_position` returns: the day-reset applied when the
calendar day changed, nothing else. -/
theorem can_add_fst (s : State) (d : String) (r : ℚ) :
    (can_add_position s d r).1 =
      if some (dayOf d) ≠ s.last_trading_day then
        { s with daily_positions_opened := 0, last_trading_day := some (dayOf d) }
      else s := by
  simp only [can_add_position]
  split_ifs <;> rfl

theorem can_add_ltd (s : State) (d : String) (r : ℚ) :
    (can_add_position s d r).1.last_trading_day = some (dayOf d) := by
  rw [can_add_fst]
  split_ifs with h
  · rfl
  · push_neg at h
    exact h.symm

theorem can_add_frame (s : State) (d : String) (r : ℚ) :
    (can_add_position s d r).1.active_positions = s.active_positions ∧
    (can_add_position s d r).1.total_allocation = s.total_allocation ∧
    (can_add_position s d r).1.total_risk = s.total_risk ∧
    (can_add_position s d r).1.last_processed_date = s.last_processed_date := by
  rw [can_add_fst]
  split_ifs <;> simp

/-- The verdict of `can_add_position`, read off the returned state. -/
theorem can_add_snd_iff (s : State) (d : String) (r : ℚ) :
    (can_add_position s d r).2 = true ↔
      (can_add_position s d r).1.daily_positions_opened < max_daily_positions ∧
      (can_add_position s d r).1.total_risk + r ≤ max_total_risk := by
  have hfst := can_add_fst s d r
  simp only [can_add_position] at hfst ⊢
  split_ifs at hfst ⊢ with h1 h2 h3 <;>
    simp_all [not_le, not_lt] <;> omega

end Full

namespace Full

open Core

/-- `can_add_position` determines its verdict by the returned state. -/
theorem can_add_eq (s : State) (d : String) (r : ℚ) :
    can_add_position s d r =
      ((can_add_position s d r).1,
       decide ((can_add_position s d r).1.daily_positions_opened < max_daily_positions ∧
               (can_add_position s d r).1.total_risk + r ≤ max_total_risk)) := by
  have hiff := can_add_snd_iff s d r
  have hsplit : can_add_position s d r =
      ((can_add_position s d r).1, (can_add_position s d r).2) := rfl
  rw [hsplit]
  congr 1
  cases hb : (can_add_position s d r).2 with
  | true =>
    have := hiff.mp hb
    simp [this]
  | false =>
    have : ¬((can_add_position s d r).1.daily_positions_opened < max_daily_positions ∧
        (can_add_position s d r).1.total_risk + r ≤ max_total_risk) := by
      intro hc
      rw [← hiff] at hc
      rw [hb] at hc
      exact Bool.false_ne_true hc
    simp [this]

/-- Calling `can_add_position` again on the state it returned changes nothing
and returns the same verdict. -/
theorem can_add_idem (s : State) (d : String) (r : ℚ) :
    can_add_position ((can_add_position s d r).1) d r = can_add_position s d r := by
  have hfst2 : (can_add_position ((can_add_position s d r).1) d r).1 =
      (can_add_position s d r).1 := by
    rw [can_add_fst ((can_add_position s d r).1) d r, if_neg]
    push_neg
    rw [can_add_ltd]
  conv_rhs => rw [can_add_eq s d r]
  rw [can_add_eq ((can_add_position s d r).1) d r, hfst2]

/-- Every normal return of `run` emits the final `total_allocation`. -/
theorem run_out {s : State} {t : Tick} {s' : State} {o : ℚ}
    (h : run s t = some (s', o)) : o = s'.total_allocation := by
  simp only [run, entry_phase, finishTick] at h
  repeat' split at h
  all_goals
    first
      | (rw [Option.some_inj] at h
         obtain ⟨rfl, rfl⟩ := Prod.mk.inj h
         rfl)
      | simp at h

end Full

namespace Full

open Core

/-- The inductive invariant of the indicator-driven engine: exposure and risk
agree with the ledger, no zero entry prices, and all caps hold. -/
def Inv (s : State) : Prop :=
  s.total_allocation = (s.active_positions.map Position.allocation).sum ∧
  s.total_risk = (s.active_positions.map positionRiskVal).sum ∧
  (∀ p ∈ s.active_positions, p.price ≠ 0) ∧
  s.active_positions.length ≤ max_positions ∧
  (∀ d, count_positions_by_type s.active_positions d ≤ max_positions_per_direction) ∧
  s.daily_positions_opened ≤ max_daily_positions

theorem Inv_initState : Inv initState := by
  refine ⟨rfl, rfl, ?_, ?_, ?_, ?_⟩ <;>
    simp [initState, count_positions_by_type, max_positions, max_positions_per_direction,
      max_daily_positions]

theorem calc_risk_some {e st a r : ℚ} (h : calculate_position_risk e st a = some r) :
    e ≠ 0 ∧ r = |e - st| * a / e := by
  unfold calculate_position_risk at h
  split_ifs at h with h0
  exact ⟨h0, (Option.some_inj.mp h).symm⟩

theorem exposure_after_manage {ps : List Position} {tot : ℚ} (c h l : ℚ)
    (hexp : tot = (ps.map Position.allocation).sum) :
    tot + (manage_existing_positions ps c h l).2 =
      (((manage_existing_positions ps c h l).1).map Position.allocation).sum := by
  rw [manage_eq_filter]
  rw [hexp, sum_map_filter_split (fun p => closes p h l) Position.allocation ps]
  ring

theorem count_filter_le (ps : List Position) (P : Position → Bool) (d : Dir) :
    count_positions_by_type (ps.filter P) d ≤ count_positions_by_type ps d := by
  unfold count_positions_by_type
  exact ((List.filter_sublist ps).filter _).length_le

theorem count_append_single (ps : List Position) (p : Position) (d : Dir) :
    count_positions_by_type (ps ++ [p]) d =
      count_positions_by_type ps d + (if p.type = d then 1 else 0) := by
  unfold count_positions_by_type
  rw [List.filter_append]
  by_cases hp : p.type = d <;> simp [hp]

theorem count_append_self (ps : List Position) (p : Position) (d : Dir)
    (hp : p.type = d) :
    count_positions_by_type (ps ++ [p]) d = count_positions_by_type ps d + 1 := by
  rw [count_append_single, if_pos hp]

theorem count_append_other (ps : List Position) (p : Position) (d : Dir)
    (hp : ¬(p.type = d)) :
    count_positions_by_type (ps ++ [p]) d = count_positions_by_type ps d := by
  rw [count_append_single, if_neg hp]
  omega

/-- The state after the exit scan and the risk recomputation keeps the
invariant. -/
theorem exit_inv {s : State} {td : Bar} {tr : ℚ} (hinv : Inv s)
    (htr : sumRisks ((manage_existing_positions s.active_positions td.close td.high
      td.low).1) = some tr) :
    Inv { s with
      active_positions := (manage_existing_positions s.active_positions td.close td.high
        td.low).1,
      total_allocation := s.total_allocation + (manage_existing_positions s.active_positions
        td.close td.high td.low).2,
      total_risk := tr } := by
  obtain ⟨hexp, _hrisk, _hwf, hlen, hcnt, hdaily⟩ := hinv
  obtain ⟨hwf', htr'⟩ := sumRisks_eq_some htr
  refine ⟨?_, ?_, ?_, ?_, ?_, ?_⟩
  · exact exposure_after_manage td.close td.high td.low hexp
  · exact htr'
  · exact hwf'
  · calc (manage_existing_positions s.active_positions td.close td.high td.low).1.length
        ≤ s.active_positions.length := by
          rw [manage_eq_filter]
          exact (List.filter_sublist _).length_le
      _ ≤ max_positions := hlen
  · intro d
    calc count_positions_by_type (manage_existing_positions s.active_positions td.close
          td.high td.low).1 d
        ≤ count_positions_by_type s.active_positions d := by
          rw [manage_eq_filter]
          exact count_filter_le _ _ d
      _ ≤ max_positions_per_direction := hcnt d
  · exact hdaily

/-- The entry half of a tick keeps the invariant. -/
theorem entry_phase_inv {s : State} {td : Bar} {d : String} {params : Params}
    {trend : Dir} {s' : State} {o : ℚ} (hinv : Inv s) (hclose : td.close ≠ 0)
    (h : entry_phase s td d params trend = some (s', o)) : Inv s' := by
  obtain ⟨hexp, hrisk, hwf, hlen, hcnt, hdaily⟩ := hinv
  simp only [entry_phase, finishTick, openPosition] at h
  split at h
  case isFalse =>
    rw [Option.some_inj] at h
    obtain ⟨rfl, rfl⟩ := Prod.mk.inj h
    exact ⟨hexp, hrisk, hwf, hlen, hcnt, hdaily⟩
  case isTrue hlen2 =>
    split at h
    case h_1 => simp at h
    case h_2 pr hpr =>
      have cact : (can_add_position s d pr).1.active_positions = s.active_positions :=
        (can_add_frame s d pr).1
      have cexp : (can_add_position s d pr).1.total_allocation = s.total_allocation :=
        (can_add_frame s d pr).2.1
      have crisk : (can_add_position s d pr).1.total_risk = s.total_risk :=
        (can_add_frame s d pr).2.2.1
      have cdaily : (can_add_position s d pr).1.daily_positions_opened ≤
          max_daily_positions := by
        rw [can_add_fst]
        split_ifs
        · exact Nat.zero_le _
        · exact hdaily
      have hca_inv : Inv (can_add_position s d pr).1 := by
        refine ⟨?_, ?_, ?_, ?_, ?_, cdaily⟩
        · rw [cexp, cact]; exact hexp
        · rw [crisk, cact]; exact hrisk
        · rw [cact]; exact hwf
        · rw [cact]; exact hlen
        · intro dd; rw [cact]; exact hcnt dd
      split at h
      case isTrue =>
        rw [Option.some_inj] at h
        obtain ⟨rfl, rfl⟩ := Prod.mk.inj h
        exact hca_inv
      case isFalse hverdict =>
        split at h
        case isTrue =>
          rw [Option.some_inj] at h
          obtain ⟨rfl, rfl⟩ := Prod.mk.inj h
          exact hca_inv
        case isFalse hdir =>
          have htrue : (can_add_position s d pr).2 = true := by
            cases hb : (can_add_position s d pr).2
            · exact absurd hb hverdict
            · rfl
          obtain ⟨cdaily2, _crisk2⟩ := (can_add_snd_iff s d pr).mp htrue
          obtain ⟨he0, hprv⟩ := calc_risk_some hpr
          split at h
          case isTrue =>
            rw [Option.some_inj] at h
            obtain ⟨rfl, rfl⟩ := Prod.mk.inj h
            refine ⟨?_, ?_, ?_, ?_, ?_, ?_⟩
            · simp only [cexp, cact, List.map_append, List.sum_append, List.map_cons,
                List.map_nil, List.sum_cons, List.sum_nil]
              rw [hexp]
              ring
            · simp only [crisk, cact, List.map_append, List.sum_append, List.map_cons,
                List.map_nil, List.sum_cons, List.sum_nil]
              rw [hrisk, hprv]
              simp [positionRiskVal]
            · intro p hp
              rw [cact] at hp
              rcases List.mem_append.mp hp with hp | hp
              · exact hwf p hp
              · rw [List.mem_singleton.mp hp]
                exact hclose
            · simp only [cact, List.length_append, List.length_singleton]
              omega
            · intro dd
              rw [cact] at hdir ⊢
              by_cases hd : trend = dd
              · subst hd
                have hstep := count_append_self s.active_positions
                  (⟨td.close, params.allocation, trend,
                    if trend = Dir.bullish then td.close + params.tp_distance
                      else td.close - params.tp_distance,
                    if trend = Dir.bullish then td.close - params.sl_distance
                      else td.close + params.sl_distance⟩ : Position) trend rfl
                rw [hstep]
                omega
              · rw [count_append_other _ _ _ hd]
                exact hcnt dd
            · show (can_add_position s d pr).1.daily_positions_opened + 1 ≤
                max_daily_positions
              omega
          case isFalse =>
            rw [Option.some_inj] at h
            obtain ⟨rfl, rfl⟩ := Prod.mk.inj h
            exact hca_inv

end Full

namespace Full

open Core

theorem params_close_ne {td : Bar} {t : Tick} {params : Params}
    (h : calculate_dynamic_parameters td t = some params) : td.close ≠ 0 := by
  intro h0
  simp only [calculate_dynamic_parameters, h0] at h
  simp at h

/-- One tick of `run` keeps the invariant. -/
theorem run_inv {s : State} {t : Tick} {s' : State} {o : ℚ} (hinv : Inv s)
    (h : run s t = some (s', o)) : Inv s' := by
  simp only [run, finishTick] at h
  split at h
  case isTrue =>
    rw [Option.some_inj] at h
    obtain ⟨rfl, rfl⟩ := Prod.mk.inj h
    exact hinv
  case isFalse =>
    split at h
    case isTrue =>
      rw [Option.some_inj] at h
      obtain ⟨rfl, rfl⟩ := Prod.mk.inj h
      exact hinv
    case isFalse =>
      split at h
      case h_1 =>
        rw [Option.some_inj] at h
        obtain ⟨rfl, rfl⟩ := Prod.mk.inj h
        exact hinv
      case h_2 params hparams =>
        split at h
        case h_1 => simp at h
        case h_2 tr htr =>
          have hs2 := @exit_inv s (tickBar t) tr hinv htr
          split at h
          case h_1 =>
            rw [Option.some_inj] at h
            obtain ⟨rfl, rfl⟩ := Prod.mk.inj h
            exact hs2
          case h_2 trend htrend =>
            exact entry_phase_inv hs2 (params_close_ne hparams) h

/-- Every reachable state of the indicator-driven engine satisfies the
invariant. -/
theorem inv_reachable {s : State} (h : Reachable s) : Inv s := by
  induction h with
  | init => exact Inv_initState
  | step hre hrun ih => exact run_inv ih hrun

end Full

namespace Simple

open Core

/-- Re-anchoring changes only take-profits: allocations survive. -/
theorem adjust_allocations (ps : List Position) (trend : Dir) :
    (adjust_take_profits ps trend).map Position.allocation = ps.map Position.allocation := by
  unfold adjust_take_profits
  split
  · rfl
  · split
    · simp [List.map_map, Function.comp]
    · rfl

/-- The exposure delta returned by `calculate_position_allocation` matches the
ledger it returns. -/
theorem calc_alloc_exposure (ps : List Position) (c : ℚ) (trend : Dir) :
    (((calculate_position_allocation ps c trend).1).map Position.allocation).sum =
      (ps.map Position.allocation).sum + (calculate_position_allocation ps c trend).2 := by
  unfold calculate_position_allocation
  split
  · simp
  · simp only []
    generalize (if trend = Dir.bullish then c + tp_distance else c - tp_distance) = tp
    generalize (if trend = Dir.bullish then c - sl_distance else c + sl_distance) = sl
    split
    · rw [adjust_allocations]
      simp [List.sum_append]
    · simp [List.sum_append]

/-- Exposure invariant of the fixed-parameter engine. -/
def SInv (s : State) : Prop :=
  s.total_allocation = (s.active_positions.map Position.allocation).sum

theorem sinv_step {s s' : State} {ohlcv : List Bar} {o : ℚ} (hinv : SInv s)
    (h : run s ohlcv = (s', o)) : SInv s' ∧ o = s'.total_allocation := by
  simp only [run] at h
  split at h
  case isTrue =>
    obtain ⟨rfl, rfl⟩ := Prod.mk.inj h
    exact ⟨hinv, rfl⟩
  case isFalse =>
    split at h
    case isTrue =>
      obtain ⟨rfl, rfl⟩ := Prod.mk.inj h
      exact ⟨hinv, rfl⟩
    case isFalse =>
      split at h
      case isTrue hopen =>
        obtain ⟨rfl, rfl⟩ := Prod.mk.inj h
        refine ⟨?_, rfl⟩
        show _ = _
        rw [calc_alloc_exposure]
        have := Full.exposure_after_manage (ohlcv.getLastD defaultBar).close
          (ohlcv.getLastD defaultBar).high (ohlcv.getLastD defaultBar).low hinv
        rw [← this]
      case isFalse hopen =>
        obtain ⟨rfl, rfl⟩ := Prod.mk.inj h
        refine ⟨?_, rfl⟩
        show _ = _
        have := Full.exposure_after_manage (ohlcv.getLastD defaultBar).close
          (ohlcv.getLastD defaultBar).high (ohlcv.getLastD defaultBar).low hinv
        rw [← this]
        ring

theorem sinv_reachable {s : State} (h : Reachable s) : SInv s := by
  induction h with
  | init => rfl
  | step hre hrun ih => exact (sinv_step ih hrun).1

end Simple

namespace Full

open Core

/-- When a tick opens a position, the recorded total risk right after the
entry stays within the budget, because `can_add_position` accepted it. -/
theorem opens_risk {s : State} {t : Tick} {s' : State} {o : ℚ}
    (h : run s t = some (s', o)) (hop : opens s t = true) :
    s'.total_risk ≤ max_total_risk := by
  simp only [opens] at hop
  split at hop
  case isTrue => simp at hop
  case isFalse h1 =>
    split at hop
    case isTrue => simp at hop
    case isFalse h2 =>
      split at hop
      case h_1 => simp at hop
      case h_2 params hparams =>
        split at hop
        case h_1 => simp at hop
        case h_2 tr htr =>
          split at hop
          case h_1 => simp at hop
          case h_2 trend htrend =>
            split at hop
            case isFalse => simp at hop
            case isTrue hlen =>
              split at hop
              case h_1 => simp at hop
              case h_2 pr hpr =>
                split at hop
                case isTrue => simp at hop
                case isFalse hca =>
                  split at hop
                  case isTrue => simp at hop
                  case isFalse hcnt =>
                    simp only [run, entry_phase, finishTick, openPosition] at h
                    rw [if_neg h1, if_neg h2, hparams] at h
                    simp only [] at h
                    rw [htr] at h
                    simp only [] at h
                    rw [htrend] at h
                    simp only [] at h
                    rw [if_pos hlen, hpr] at h
                    simp only [] at h
                    rw [if_neg hca, if_neg hcnt, if_pos hop] at h
                    rw [Option.some_inj] at h
                    obtain ⟨rfl, rfl⟩ := Prod.mk.inj h
                    have htrue : (can_add_position
                        { s with
                          active_positions := (manage_existing_positions s.active_positions
                            (tickBar t).close (tickBar t).high (tickBar t).low).1,
                          total_allocation := s.total_allocation +
                            (manage_existing_positions s.active_positions (tickBar t).close
                              (tickBar t).high (tickBar t).low).2,
                          total_risk := tr } (tickBar t).date pr).2 = true := by
                      cases hb : (can_add_position _ (tickBar t).date pr).2
                      · exact absurd hb hca
                      · rfl
                    have := (can_add_snd_iff _ (tickBar t).date pr).mp htrue
                    exact this.2

end Full

open Core

/-- A tick with no bar history at all: `run` takes the insufficient-data
branch. -/
def emptyTick : Full.Tick := ⟨[], [], [], [], []⟩

/-- C1.  Exposure invariant: in both variants, after every tick processed by
`run` from a reachable state, the emitted aggregate exposure equals the sum of
`allocation` over the legs in the ledger, whether the tick was a no-op, closed
legs, or opened a leg. -/
theorem exposure_invariant_runs :
    (∀ (s : Full.State) (t : Full.Tick) (s' : Full.State) (o : ℚ),
      Full.Reachable s → Full.run s t = some (s', o) →
      o = (s'.active_positions.map Position.allocation).sum) ∧
    (∀ (s : Simple.State) (ohlcv : List Simple.Bar) (s' : Simple.State) (o : ℚ),
      Simple.Reachable s → Simple.run s ohlcv = (s', o) →
      o = (s'.active_positions.map Position.allocation).sum) := by
  constructor
  · intro s t s' o hr hrun
    have hinv := Full.inv_reachable (Full.Reachable.step hr hrun)
    rw [Full.run_out hrun]
    exact hinv.1
  · intro s oh s' o hr hrun
    obtain ⟨hinv', hout⟩ := Simple.sinv_step (Simple.sinv_reachable hr) hrun
    rw [hout]
    exact hinv'

theorem exposure_invariant_runs_witness :
    (0 : ℚ) = (Full.initState.active_positions.map Position.allocation).sum :=
  exposure_invariant_runs.1 Full.initState emptyTick Full.initState 0
    Full.Reachable.init rfl

/-- C2.  Risk invariant: in every reachable state of the indicator-driven
engine (hence after every tick), `total_risk` equals the sum over the ledger
of `|entry_price - stop_loss| * allocation / entry_price`; the recomputation
from scratch after exits and the increment on open agree with this sum in
exact arithmetic. -/
theorem risk_invariant_reachable :
    ∀ s : Full.State, Full.Reachable s →
      s.total_risk = (s.active_positions.map (fun p =>
        |p.price - p.stop_loss| * p.allocation / p.price)).sum := by
  intro s hr
  exact (Full.inv_reachable hr).2.1

theorem risk_invariant_reachable_witness :
    Full.initState.total_risk = (Full.initState.active_positions.map (fun p =>
      |p.price - p.stop_loss| * p.allocation / p.price)).sum :=
  risk_invariant_reachable Full.initState Full.Reachable.init

/-- C3.  Cap enforcement: in every reachable state the ledger length is at
most `max_positions`, each direction holds at most
`max_positions_per_direction` legs, and `daily_positions_opened` is at most
`max_daily_positions`; moreover, immediately after any accepted entry the
recorded `total_risk` is at most `max_total_risk`. -/
theorem cap_enforcement :
    (∀ s : Full.State, Full.Reachable s →
      s.active_positions.length ≤ Full.max_positions ∧
      (∀ d : Dir, Full.count_positions_by_type s.active_positions d ≤
        Full.max_positions_per_direction) ∧
      s.daily_positions_opened ≤ Full.max_daily_positions) ∧
    (∀ (s : Full.State) (t : Full.Tick) (s' : Full.State) (o : ℚ),
      Full.run s t = some (s', o) → Full.opens s t = true →
      s'.total_risk ≤ Full.max_total_risk) := by
  constructor
  · intro s hr
    obtain ⟨_, _, _, hlen, hcnt, hdaily⟩ := Full.inv_reachable hr
    exact ⟨hlen, hcnt, hdaily⟩
  · intro s t s' o hrun hop
    exact Full.opens_risk hrun hop

theorem cap_enforcement_witness :
    Full.initState.active_positions.length ≤ Full.max_positions ∧
    Full.initState.daily_positions_opened ≤ Full.max_daily_positions :=
  ⟨(cap_enforcement.1 Full.initState Full.Reachable.init).1,
   (cap_enforcement.1 Full.initState Full.Reachable.init).2.2⟩

/-- C4.  Exit rules with tie-break: the exit scan removes exactly the legs
whose thresholds are touched — a Long leg when `high ≥ take_profit` or
`low ≤ stop_loss`, a Short leg when `low ≤ take_profit` or
`high ≥ stop_loss` — removes them entirely, subtracts each removed leg's
allocation from the exposure, and when both thresholds trigger in the same
bar the exit is recorded as a take-profit because that check comes first. -/
theorem exit_rules_tie_break :
    ∀ (positions : List Position) (current high low : ℚ),
      (manage_existing_positions positions current high low).1 =
        positions.filter (fun p => !(closes p high low)) ∧
      (manage_existing_positions positions current high low).2 =
        -(((positions.filter (fun p => closes p high low)).map Position.allocation).sum) ∧
      (∀ p : Position, closes p high low = true ↔
        ((p.type = Dir.bullish ∧ (high ≥ p.take_profit ∨ low ≤ p.stop_loss)) ∨
         (p.type = Dir.bearish ∧ (low ≤ p.take_profit ∨ high ≥ p.stop_loss)))) ∧
      (∀ p : Position, p.type = Dir.bullish → high ≥ p.take_profit →
        exitReason p high low = some ExitKind.takeProfit) ∧
      (∀ p : Position, p.type = Dir.bearish → low ≤ p.take_profit →
        exitReason p high low = some ExitKind.takeProfit) := by
  intro positions current high low
  refine ⟨?_, ?_, ?_, ?_, ?_⟩
  · rw [manage_eq_filter]
  · rw [manage_eq_filter]
  · intro p
    unfold closes exitReason
    cases hty : p.type <;> simp [hty] <;> split_ifs <;> simp_all <;> tauto
  · intro p hty htp
    unfold exitReason
    rw [if_pos ⟨hty, htp⟩]
  · intro p hty htp
    unfold exitReason
    rw [if_neg, if_pos ⟨hty, htp⟩]
    rintro ⟨hb, _⟩
    rw [hty] at hb
    exact Dir.noConfusion hb

theorem exit_rules_tie_break_witness :
    (manage_existing_positions [⟨100, 1, Dir.bullish, 105, 90⟩] 100 106 89).1 = [] ∧
    exitReason ⟨100, 1, Dir.bullish, 105, 90⟩ 106 89 = some ExitKind.takeProfit := by
  constructor
  · rw [(exit_rules_tie_break [⟨100, 1, Dir.bullish, 105, 90⟩] 100 106 89).1]
    norm_num [closes, exitReason]
  · exact (exit_rules_tie_break [⟨100, 1, Dir.bullish, 105, 90⟩] 100 106 89).2.2.2.1
      ⟨100, 1, Dir.bullish, 105, 90⟩ rfl (by norm_num)

namespace Full

open Core

theorem should_open_check_nil (c g : ℚ) (d : Dir) : should_open_check [] c d g = true := rfl

theorem should_open_check_last {ps : List Position} {lp : Position} (c g : ℚ) (d : Dir)
    (h : ps.getLast? = some lp) :
    should_open_check ps c d g =
      (if d = Dir.bullish then decide (c < lp.price - g)
       else decide (c > lp.price + g)) := by
  unfold should_open_check
  rw [h]

end Full

namespace Simple

open Core

theorem should_open_nil (c : ℚ) (d : Dir) : should_open_new_position [] c d = true := rfl

theorem should_open_last {ps : List Position} {lp : Position} (c : ℚ) (d : Dir)
    (h : ps.getLast? = some lp) :
    should_open_new_position ps c d =
      (if d = Dir.bullish then decide (c < lp.price - grid_step)
       else decide (c > lp.price + grid_step)) := by
  unfold should_open_new_position
  rw [h]

end Simple

/-- C5.  Grid-spacing gate: with an empty ledger the gate always passes; with
a non-empty ledger the close is compared against the **last** leg's entry
price (whatever that leg's direction): a Long entry needs
`close < last.price - grid_step`, a Short entry needs
`close > last.price + grid_step`.  In the indicator-driven variant, any tick
that opens a leg onto a non-empty (post-exit) ledger satisfied that
inequality. -/
theorem grid_spacing_gate :
    (∀ (c : ℚ) (d : Dir), Simple.should_open_new_position [] c d = true) ∧
    (∀ (ps : List Position) (lp : Position) (c : ℚ) (d : Dir),
      ps.getLast? = some lp →
      Simple.should_open_new_position ps c d =
        (if d = Dir.bullish then decide (c < lp.price - Simple.grid_step)
         else decide (c > lp.price + Simple.grid_step))) ∧
    (∀ (c g : ℚ) (d : Dir), Full.should_open_check [] c d g = true) ∧
    (∀ (ps : List Position) (lp : Position) (c g : ℚ) (d : Dir),
      ps.getLast? = some lp →
      Full.should_open_check ps c d g =
        (if d = Dir.bullish then decide (c < lp.price - g)
         else decide (c > lp.price + g))) ∧
    (∀ (s : Full.State) (t : Full.Tick) (params : Full.Params) (trend : Dir)
        (lp : Position),
      Full.opens s t = true →
      Full.calculate_dynamic_parameters (Full.tickBar t) t = some params →
      Full.determine_trend (Full.tickBar t).opn (Full.tickBar t).close params =
        some trend →
      (Full.exitLedger s t).getLast? = some lp →
      (if trend = Dir.bullish then (Full.tickBar t).close < lp.price - params.grid_step
       else (Full.tickBar t).close > lp.price + params.grid_step)) := by
  refine ⟨fun c d => Simple.should_open_nil c d,
    fun ps lp c d h => Simple.should_open_last c d h,
    fun c g d => Full.should_open_check_nil c g d,
    fun ps lp c g d h => Full.should_open_check_last c g d h, ?_⟩
  intro s t params trend lp hop hparams htrend hlast
  simp only [Full.opens] at hop
  split at hop
  case isTrue => simp at hop
  case isFalse h1 =>
    split at hop
    case isTrue => simp at hop
    case isFalse h2 =>
      split at hop
      case h_1 => simp at hop
      case h_2 params' hparams' =>
        have heqp : params' = params := by
          rw [hparams] at hparams'
          exact (Option.some_inj.mp hparams').symm
        split at hop
        case h_1 => simp at hop
        case h_2 tr htr =>
          split at hop
          case h_1 => simp at hop
          case h_2 trend' htrend' =>
            have heqt : trend' = trend := by
              rw [heqp, htrend] at htrend'
              exact (Option.some_inj.mp htrend').symm
            split at hop
            case isFalse => simp at hop
            case isTrue hlen =>
              split at hop
              case h_1 => simp at hop
              case h_2 pr hpr =>
                split at hop
                case isTrue => simp at hop
                case isFalse hca =>
                  split at hop
                  case isTrue => simp at hop
                  case isFalse hcnt =>
                    have hact : (Full.can_add_position
                        { s with
                          active_positions := (Core.manage_existing_positions
                            s.active_positions (Full.tickBar t).close (Full.tickBar t).high
                            (Full.tickBar t).low).1,
                          total_allocation := s.total_allocation +
                            (Core.manage_existing_positions s.active_positions
                              (Full.tickBar t).close (Full.tickBar t).high
                              (Full.tickBar t).low).2,
                          total_risk := tr } (Full.tickBar t).date pr).1.active_positions =
                        Full.exitLedger s t := (Full.can_add_frame _ _ _).1
                    rw [hact, heqp, heqt] at hop
                    rw [Full.should_open_check_last _ _ _ hlast] at hop
                    by_cases hb : trend = Dir.bullish
                    · rw [if_pos hb]
                      rw [if_pos hb] at hop
                      exact of_decide_eq_true hop
                    · rw [if_neg hb]
                      rw [if_neg hb] at hop
                      exact of_decide_eq_true hop

theorem grid_spacing_gate_witness :
    Simple.should_open_new_position [⟨100, 1, Dir.bullish, 105, 90⟩] 98 Dir.bullish =
      (if Dir.bullish = Dir.bullish then decide ((98:ℚ) < 100 - Simple.grid_step)
       else decide ((98:ℚ) > 100 + Simple.grid_step)) ∧
    Full.should_open_check [] 5 Dir.bearish 1 = true :=
  ⟨grid_spacing_gate.2.1 [⟨100, 1, Dir.bullish, 105, 90⟩] ⟨100, 1, Dir.bullish, 105, 90⟩
      98 Dir.bullish rfl,
   grid_spacing_gate.2.2.1 5 1 Dir.bearish⟩

namespace Simple

open Core

theorem adjust_length (ps : List Position) (trend : Dir) :
    (adjust_take_profits ps trend).length = ps.length := by
  unfold adjust_take_profits
  split
  · rfl
  · split
    · simp
    · rfl

end Simple

/-- C6 (amended).  When an entry (accepted under the total cap) brings the leg
count strictly above `adjustment_threshold`, every leg's `take_profit` is
overwritten with the single shared value
`close ± |close - first.entry_price| * tp_adjustment_percent`, the sign taken
from the **entering tick's trend** (the direction of the just-appended last
leg) — not from the first leg's direction — and immediately afterwards all
legs share an identical take-profit. -/
theorem reanchor_amended :
    ∀ (positions : List Position) (current_price : ℚ) (trend : Dir)
      (first_pos : Position),
      positions.head? = some first_pos →
      positions.length < Simple.max_positions →
      Simple.adjustment_threshold <
        ((Simple.calculate_position_allocation positions current_price trend).1).length →
      (∀ p ∈ (Simple.calculate_position_allocation positions current_price trend).1,
        p.take_profit =
          (if trend = Dir.bullish then
            current_price + |current_price - first_pos.price| * Simple.tp_adjustment_percent
          else
            current_price - |current_price - first_pos.price| *
              Simple.tp_adjustment_percent)) ∧
      (∀ p ∈ (Simple.calculate_position_allocation positions current_price trend).1,
        ∀ q ∈ (Simple.calculate_position_allocation positions current_price trend).1,
          p.take_profit = q.take_profit) := by
  intro ps c trend first_pos hhead hlen hthr
  have hmax : ¬(ps.length ≥ Simple.max_positions) := by omega
  have hfirst : ∀ (tp sl : ℚ),
      (ps ++ [(⟨c, Simple.initial_allocation, trend, tp, sl⟩ : Position)]).head? =
        some first_pos := by
    intro tp sl
    cases ps with
    | nil => simp at hhead
    | cons a l => simpa using hhead
  constructor
  · intro p hp
    simp only [Simple.calculate_position_allocation, if_neg hmax] at hp hthr
    set tp0 := (if trend = Dir.bullish then c + Simple.tp_distance
      else c - Simple.tp_distance) with htp0
    set sl0 := (if trend = Dir.bullish then c - Simple.sl_distance
      else c + Simple.sl_distance) with hsl0
    split at hp
    case isFalse hc =>
      rw [if_neg hc] at hthr
      exact absurd hthr hc
    case isTrue hcond =>
      unfold Simple.adjust_take_profits at hp
      rw [if_neg (by omega)] at hp
      rw [hfirst, List.getLast?_concat] at hp
      obtain ⟨q, hq, rfl⟩ := List.mem_map.mp hp
      rfl
  · intro p hp q hq
    simp only [Simple.calculate_position_allocation, if_neg hmax] at hp hq hthr
    set tp0 := (if trend = Dir.bullish then c + Simple.tp_distance
      else c - Simple.tp_distance) with htp0
    set sl0 := (if trend = Dir.bullish then c - Simple.sl_distance
      else c + Simple.sl_distance) with hsl0
    split at hp
    case isFalse hc =>
      rw [if_neg hc] at hthr
      exact absurd hthr hc
    case isTrue hcond =>
      rw [if_pos hcond] at hq
      unfold Simple.adjust_take_profits at hp hq
      rw [if_neg (by omega)] at hp hq
      rw [hfirst, List.getLast?_concat] at hp hq
      obtain ⟨p', hp', rfl⟩ := List.mem_map.mp hp
      obtain ⟨q', hq', rfl⟩ := List.mem_map.mp hq
      rfl

/-- A six-leg Long ledger (first leg entered at 80). -/
def ps6 : List Position :=
  [⟨80, 1/100, Dir.bullish, 200, 0⟩, ⟨81, 1/100, Dir.bullish, 200, 0⟩,
   ⟨82, 1/100, Dir.bullish, 200, 0⟩, ⟨83, 1/100, Dir.bullish, 200, 0⟩,
   ⟨84, 1/100, Dir.bullish, 200, 0⟩, ⟨85, 1/100, Dir.bullish, 200, 0⟩]

/-- A seventh, Short entry at 90 on `ps6` triggers re-anchoring: every leg's
take-profit becomes `90 - |90 - 80| * 0.70 = 83`, signed by the entering
trend (Short), not by the first leg's direction (Long). -/
theorem calc6_eval : (Simple.calculate_position_allocation ps6 90 Dir.bearish).1 =
    [⟨80, 1/100, Dir.bullish, 83, 0⟩, ⟨81, 1/100, Dir.bullish, 83, 0⟩,
     ⟨82, 1/100, Dir.bullish, 83, 0⟩, ⟨83, 1/100, Dir.bullish, 83, 0⟩,
     ⟨84, 1/100, Dir.bullish, 83, 0⟩, ⟨85, 1/100, Dir.bullish, 83, 0⟩,
     ⟨90, 1/100, Dir.bearish, 83, 110⟩] := by
  norm_num [ps6, Simple.calculate_position_allocation, Simple.adjust_take_profits,
    Simple.max_positions, Simple.adjustment_threshold, Simple.initial_allocation,
    Simple.tp_adjustment_percent, Simple.tp_distance, Simple.sl_distance,
    List.getLast?_concat]
  decide

/-- C6 counterexample: after the Short entry at 90 onto the Long ledger
`ps6` (first leg at 80, direction Long), every take-profit is 83 =
`90 - |90 - 80| * 0.70`, not the value `90 + |90 - 80| * 0.70 = 97` that the
claim's Long-cohort rule (cohort direction = first leg's direction) demands. -/
theorem reanchor_cohort_counterexample :
    ps6.head? = some ⟨80, 1/100, Dir.bullish, 200, 0⟩ ∧
    (⟨80, 1/100, Dir.bullish, 200, 0⟩ : Position).type = Dir.bullish ∧
    ((Simple.calculate_position_allocation ps6 90 Dir.bearish).1.map
      Position.take_profit) = [83, 83, 83, 83, 83, 83, 83] ∧
    (83 : ℚ) ≠ 90 + |(90 : ℚ) - 80| * Simple.tp_adjustment_percent := by
  refine ⟨rfl, rfl, ?_, ?_⟩
  · rw [calc6_eval]
    rfl
  · rw [show |(90 : ℚ) - 80| = 10 from by norm_num]
    norm_num [Simple.tp_adjustment_percent]

theorem reanchor_amended_witness :
    (⟨80, 1/100, Dir.bullish, 83, 0⟩ : Position).take_profit =
      (if Dir.bearish = Dir.bullish then
        (90 : ℚ) + |(90 : ℚ) - (⟨80, 1/100, Dir.bullish, 200, 0⟩ : Position).price| *
          Simple.tp_adjustment_percent
      else
        (90 : ℚ) - |(90 : ℚ) - (⟨80, 1/100, Dir.bullish, 200, 0⟩ : Position).price| *
          Simple.tp_adjustment_percent) :=
  (reanchor_amended ps6 90 Dir.bearish ⟨80, 1/100, Dir.bullish, 200, 0⟩ rfl (by decide)
      (by rw [calc6_eval]; decide)).1
    ⟨80, 1/100, Dir.bullish, 83, 0⟩ (by rw [calc6_eval]; simp)

namespace Core

theorem manage_nil (c h l : ℚ) : manage_existing_positions [] c h l = ([], 0) := by
  simp [manage_eq_filter]

end Core

/-- A bar on day "d1": open 100, high 105, low 95, close 101, volume 1. -/
def goodBar : Full.Bar := ⟨"d1", 100, 105, 95, 101, 1⟩

/-- Nineteen identical warm-up bars on day "d0". -/
def fillBar : Full.Bar := ⟨"d0", 100, 105, 95, 101, 1⟩

/-- Twenty bars of history with flat volume 1, ATR 0, RSI 50, SMA 100, short
SMA 101: enough history, a confirmed Long trend, tiny volatility. -/
def goodTick : Full.Tick := ⟨List.replicate 19 fillBar ++ [goodBar], [50], [0], [100], [101]⟩

/-- The dynamic parameters the engine computes on `goodTick`: the volatility
clamp floors at 1/1000, so the position size is `1 × (1 - 1/1000) = 999/1000`,
not the base size 1. -/
def goodParams : Full.Params := ⟨0, 0, 0, 999/1000, 50, 0, 100, 101, 1/1000, 1⟩

theorem dayOf_d1 : Full.dayOf "d1" = "d1" := rfl

theorem tickBar_good : Full.tickBar goodTick = goodBar := by
  simp [Full.tickBar, goodTick, List.getLastD_concat]

theorem len_good : ¬(goodTick.ohlcv.length < Full.required_periods) := by
  simp [goodTick, Full.required_periods, Full.rsi_period, Full.atr_period,
    Full.vol_period, Full.sma_period, Full.short_sma_period]

theorem params_good : Full.calculate_dynamic_parameters goodBar goodTick =
    some goodParams := by
  norm_num [Full.calculate_dynamic_parameters, goodTick, goodBar, fillBar,
    Full.calculate_average_volume, Full.vol_period, goodParams, Full.base_allocation,
    Full.volume_multiplier, Full.max_allocation, Full.grid_multiplier,
    Full.tp_multiplier_normal, Full.tp_multiplier_overbought, Full.tp_multiplier_oversold,
    Full.sl_multiplier, List.drop_append_of_le_length,
    List.drop_replicate, List.map_replicate, List.sum_replicate, List.sum_append,
    List.map_append, nsmul_eq_mul]
  exact fun h => Option.noConfusion h

theorem trend_good : Full.determine_trend goodBar.opn goodBar.close goodParams =
    some Dir.bullish := by
  norm_num [Full.determine_trend, goodBar, goodParams]

theorem risk_good : Full.calculate_position_risk goodBar.close
    (goodBar.close - goodParams.sl_distance) goodParams.allocation = some 0 := by
  norm_num [Full.calculate_position_risk, goodBar, goodParams]

theorem canadd_good : Full.can_add_position ⟨[], 0, 0, none, none, 0⟩ goodBar.date 0 =
    (⟨[], 0, 0, some "d1", none, 0⟩, true) := by
  norm_num [Full.can_add_position, goodBar, dayOf_d1, Full.max_daily_positions,
    Full.max_total_risk, Option.some_ne_none, ne_eq]

/-- The final state of the tick `goodTick` processed from the initial state:
one Long leg at 101 of size 999/1000, zero risk. -/
def goodState : Full.State :=
  ⟨[⟨101, 999/1000, Dir.bullish, 101, 101⟩], 999/1000, 1, some "d1", some "d1", 0⟩

theorem run_good : Full.run Full.initState goodTick = some (goodState, 999/1000) := by
  have e3 : ¬(some goodBar.date = Full.initState.last_processed_date) := by
    simp [goodBar, Full.initState]
  have e5 : Core.manage_existing_positions Full.initState.active_positions goodBar.close
      goodBar.high goodBar.low = ([], 0) := by
    simp [Full.initState, Core.manage_eq_filter]
  have e6 : Full.sumRisks [] = some 0 := rfl
  simp only [Full.run, if_neg len_good, tickBar_good, if_neg e3, params_good, e5]
  norm_num [Full.initState]
  simp only [e6]
  norm_num [trend_good, Full.entry_phase, Full.max_positions]
  simp only [risk_good]
  simp only [canadd_good]
  norm_num [Full.count_positions_by_type, Full.max_positions_per_direction,
    Full.openPosition, Full.should_open_check, Full.finishTick, goodBar, goodParams,
    goodState]

theorem opens_good : Full.opens Full.initState goodTick = true := by
  have e3 : ¬(some goodBar.date = Full.initState.last_processed_date) := by
    simp [goodBar, Full.initState]
  have e5 : Core.manage_existing_positions Full.initState.active_positions goodBar.close
      goodBar.high goodBar.low = ([], 0) := by
    simp [Full.initState, Core.manage_eq_filter]
  have e6 : Full.sumRisks [] = some 0 := rfl
  simp only [Full.opens, if_neg len_good, tickBar_good, if_neg e3, params_good, e5]
  norm_num [Full.initState]
  simp only [e6]
  norm_num [trend_good, Full.max_positions]
  simp only [risk_good]
  simp only [canadd_good]
  norm_num [Full.count_positions_by_type, Full.max_positions_per_direction,
    Full.should_open_check]

/-- C7 counterexample: on `goodTick` (volume 1, not above `avg_volume × 1.2`),
the computed size is `999/1000`, not `base_size = 1` as the claim's
"`base_size` otherwise" formula demands — the code scales both branches by
`(1 - volatility_factor)`. -/
theorem position_size_counterexample :
    Full.calculate_dynamic_parameters goodBar goodTick = some goodParams ∧
    ¬(goodBar.volume > goodParams.avg_volume * (12/10)) ∧
    goodParams.allocation ≠ Full.base_allocation := by
  refine ⟨params_good, by norm_num [goodBar, goodParams], ?_⟩
  norm_num [goodParams, Full.base_allocation]

/-- C7 (amended).  The computed size is
`base_size × volume_multiplier × (1 - volatility_factor)` capped at
`max_size` when `volume_now > avg_volume × 1.2`, and
`base_size × (1 - volatility_factor)` (uncapped) otherwise, where
`volatility_factor = clamp(atr/close, 0.001, 0.02)`; and (Scenario A) a tick
that opens onto an empty ledger appends exactly one leg with
`entry_price = close` and size equal to that computed allocation, with
take-profit and stop-loss at `close ± tp_distance / sl_distance`. -/
theorem position_size_amended :
    (∀ (td : Full.Bar) (t : Full.Tick) (params : Full.Params),
      Full.calculate_dynamic_parameters td t = some params →
      params.volatility = min (max (params.atr / td.close) (1/1000)) (2/100) ∧
      params.allocation =
        (if td.volume > params.avg_volume * (12/10) then
          min (Full.base_allocation * Full.volume_multiplier * (1 - params.volatility))
            Full.max_allocation
        else Full.base_allocation * (1 - params.volatility))) ∧
    (∀ (s : Full.State) (t : Full.Tick) (s' : Full.State) (o : ℚ)
        (params : Full.Params) (trend : Dir),
      s.active_positions = [] →
      Full.run s t = some (s', o) →
      Full.opens s t = true →
      Full.calculate_dynamic_parameters (Full.tickBar t) t = some params →
      Full.determine_trend (Full.tickBar t).opn (Full.tickBar t).close params =
        some trend →
      s'.active_positions =
        [⟨(Full.tickBar t).close, params.allocation, trend,
          (if trend = Dir.bullish then (Full.tickBar t).close + params.tp_distance
            else (Full.tickBar t).close - params.tp_distance),
          (if trend = Dir.bullish then (Full.tickBar t).close - params.sl_distance
            else (Full.tickBar t).close + params.sl_distance)⟩]) := by
  constructor
  · intro td t params h
    simp only [Full.calculate_dynamic_parameters] at h
    split at h
    case isTrue => simp at h
    case isFalse hA =>
      split at h
      case isTrue => simp at h
      case isFalse hc =>
        obtain rfl : params = _ := (Option.some_inj.mp h).symm
        exact ⟨rfl, rfl⟩
  · intro s t s' o params trend hempty hrun hop hparams htrend
    simp only [Full.opens] at hop
    split at hop
    case isTrue => simp at hop
    case isFalse h1 =>
      split at hop
      case isTrue => simp at hop
      case isFalse h2 =>
        split at hop
        case h_1 => simp at hop
        case h_2 params' hparams' =>
          have heqp : params' = params := by
            rw [hparams] at hparams'
            exact (Option.some_inj.mp hparams').symm
          split at hop
          case h_1 => simp at hop
          case h_2 tr htr =>
            split at hop
            case h_1 => simp at hop
            case h_2 trend' htrend' =>
              have heqt : trend' = trend := by
                rw [heqp, htrend] at htrend'
                exact (Option.some_inj.mp htrend').symm
              split at hop
              case isFalse => simp at hop
              case isTrue hlen =>
                split at hop
                case h_1 => simp at hop
                case h_2 pr hpr =>
                  split at hop
                  case isTrue => simp at hop
                  case isFalse hca =>
                    split at hop
                    case isTrue => simp at hop
                    case isFalse hcnt =>
                      simp only [Full.run, Full.entry_phase, Full.finishTick,
                        Full.openPosition] at hrun
                      rw [if_neg h1, if_neg h2, hparams'] at hrun
                      simp only [] at hrun
                      rw [htr] at hrun
                      simp only [] at hrun
                      rw [htrend'] at hrun
                      simp only [] at hrun
                      rw [if_pos hlen, hpr] at hrun
                      simp only [] at hrun
                      rw [if_neg hca, if_neg hcnt, if_pos hop] at hrun
                      rw [Option.some_inj] at hrun
                      obtain ⟨rfl, rfl⟩ := Prod.mk.inj hrun
                      have hact : (Full.can_add_position
                          { s with
                            active_positions := (Core.manage_existing_positions
                              s.active_positions (Full.tickBar t).close
                              (Full.tickBar t).high (Full.tickBar t).low).1,
                            total_allocation := s.total_allocation +
                              (Core.manage_existing_positions s.active_positions
                                (Full.tickBar t).close (Full.tickBar t).high
                                (Full.tickBar t).low).2,
                            total_risk := tr } (Full.tickBar t).date pr).1.active_positions =
                          (Core.manage_existing_positions s.active_positions
                            (Full.tickBar t).close (Full.tickBar t).high
                            (Full.tickBar t).low).1 := (Full.can_add_frame _ _ _).1
                      show (Full.can_add_position _ _ _).1.active_positions ++ _ = _
                      rw [hact, hempty, Core.manage_nil]
                      simp [heqp, heqt]

theorem position_size_amended_witness :
    (goodParams.allocation =
      (if goodBar.volume > goodParams.avg_volume * (12/10) then
        min (Full.base_allocation * Full.volume_multiplier * (1 - goodParams.volatility))
          Full.max_allocation
      else Full.base_allocation * (1 - goodParams.volatility))) ∧
    goodState.active_positions =
      [⟨(Full.tickBar goodTick).close, goodParams.allocation, Dir.bullish,
        (if Dir.bullish = Dir.bullish then (Full.tickBar goodTick).close +
          goodParams.tp_distance
          else (Full.tickBar goodTick).close - goodParams.tp_distance),
        (if Dir.bullish = Dir.bullish then (Full.tickBar goodTick).close -
          goodParams.sl_distance
          else (Full.tickBar goodTick).close + goodParams.sl_distance)⟩] :=
  ⟨(position_size_amended.1 goodBar goodTick goodParams params_good).2,
   position_size_amended.2 Full.initState goodTick goodState (999/1000) goodParams
     Dir.bullish rfl run_good opens_good (by rw [tickBar_good]; exact params_good)
     (by rw [tickBar_good]; exact trend_good)⟩

/-- A state holding one zero-entry-price leg of size 2 whose thresholds are
far away, so the exit scan keeps it. -/
def zeroState2 : Full.State :=
  ⟨[⟨0, 2, Dir.bullish, 500000, -500000⟩], 2, 0, none, none, 0⟩

/-- C9 counterexample: a risk computation with `entry_price = 0` does not
yield a budget-exceeding maximum — it fails (the source raises
`ZeroDivisionError`, modelled as `none`), and a concrete tick over a ledger
holding a zero-price leg makes the whole `run` call fail at the risk
recomputation instead of rejecting further opens; the claimed guard does not
exist. -/
theorem risk_zero_entry_counterexample :
    Full.calculate_position_risk 0 90 1 = none ∧
    Full.run zeroState2 goodTick = none := by
  constructor
  · simp [Full.calculate_position_risk]
  · have hmem : (⟨0, 2, Dir.bullish, 500000, -500000⟩ : Position) ∈
        (Core.manage_existing_positions zeroState2.active_positions goodBar.close
          goodBar.high goodBar.low).1 := by
      norm_num [zeroState2, goodBar, Core.manage_eq_filter, Core.closes, Core.exitReason]
      decide
    have hnone : Full.sumRisks (Core.manage_existing_positions zeroState2.active_positions
        goodBar.close goodBar.high goodBar.low).1 = none :=
      Full.sumRisks_none_of_zero hmem rfl
    have e3 : ¬(some goodBar.date = zeroState2.last_processed_date) := by
      simp [goodBar, zeroState2]
    simp only [Full.run]
    rw [if_neg len_good, tickBar_good, if_neg e3, params_good]
    simp only []
    rw [hnone]

/-- C9 (amended).  A risk computation with `entry_price = 0` raises
(modelled `none`), and a tick whose post-exit ledger still holds a leg with
`entry_price = 0` makes `run` itself fail when it recomputes the total risk,
rather than rejecting further opens. -/
theorem risk_zero_entry_amended :
    (∀ stop alloc : ℚ, Full.calculate_position_risk 0 stop alloc = none) ∧
    (∀ (s : Full.State) (t : Full.Tick) (params : Full.Params) (p : Position),
      ¬(t.ohlcv.length < Full.required_periods) →
      ¬(some (Full.tickBar t).date = s.last_processed_date) →
      Full.calculate_dynamic_parameters (Full.tickBar t) t = some params →
      p ∈ Full.exitLedger s t → p.price = 0 →
      Full.run s t = none) := by
  constructor
  · intro stop alloc
    simp [Full.calculate_position_risk]
  · intro s t params p hlen hdup hparams hmem hp0
    have hnone : Full.sumRisks (Core.manage_existing_positions s.active_positions
        (Full.tickBar t).close (Full.tickBar t).high (Full.tickBar t).low).1 = none :=
      Full.sumRisks_none_of_zero hmem hp0
    simp only [Full.run]
    rw [if_neg hlen, if_neg hdup, hparams]
    simp only []
    rw [hnone]

/-- A state holding one leg with entry price 0 whose thresholds are far away,
so the exit scan keeps it. -/
def zeroState : Full.State := ⟨[⟨0, 1, Dir.bullish, 1000000, -1000000⟩], 1, 0, none, none, 0⟩

theorem risk_zero_entry_amended_witness : Full.run zeroState goodTick = none :=
  risk_zero_entry_amended.2 zeroState goodTick goodParams
    ⟨0, 1, Dir.bullish, 1000000, -1000000⟩ len_good
    (by rw [tickBar_good]; simp [zeroState, goodBar])
    (by rw [tickBar_good]; exact params_good)
    (by
      rw [Full.exitLedger, tickBar_good]
      norm_num [zeroState, goodBar, Core.manage_eq_filter, Core.closes, Core.exitReason]
      decide)
    rfl

namespace Full

open Core

theorem State.ext' {a b : State}
    (h1 : a.active_positions = b.active_positions)
    (h2 : a.total_allocation = b.total_allocation)
    (h3 : a.daily_positions_opened = b.daily_positions_opened)
    (h4 : a.last_trading_day = b.last_trading_day)
    (h5 : a.last_processed_date = b.last_processed_date)
    (h6 : a.total_risk = b.total_risk) : a = b := by
  cases a
  cases b
  simp_all

/-- Re-running a tick on a state already in its post-tick shape (exits are a
no-op and the recorded risk equals the recomputation) reduces to the trend
check and the entry phase. -/
theorem run_eval_steady {x : State} {t : Tick} {params : Params}
    (h1 : ¬(t.ohlcv.length < required_periods))
    (h2 : ¬(some (tickBar t).date = x.last_processed_date))
    (h3 : calculate_dynamic_parameters (tickBar t) t = some params)
    (h4 : manage_existing_positions x.active_positions (tickBar t).close
      (tickBar t).high (tickBar t).low = (x.active_positions, 0))
    (h5 : sumRisks x.active_positions = some x.total_risk) :
    run x t =
      (match determine_trend (tickBar t).opn (tickBar t).close params with
       | none => finishTick x (tickBar t).date
       | some trend => entry_phase x (tickBar t) (tickBar t).date params trend) := by
  simp only [run]
  rw [if_neg h1, if_neg h2, h3]
  simp only []
  rw [h4]
  simp only [add_zero]
  rw [h5]

end Full

/-- Idempotence of the indicator-driven variant's `run`: either the dedup
check fires on the second call (`last_processed_date` was set), or the tick
re-processes to the same rejection with exits a no-op, the risk recomputation
unchanged, and `can_add_position` reaching the same verdict. -/
theorem full_run_idem :
    ∀ (s : Full.State) (t : Full.Tick) (s₁ : Full.State) (o : ℚ),
      Full.run s t = some (s₁, o) → Full.run s₁ t = some (s₁, o) := by
  intro s t s₁ o h
  simp only [Full.run, Full.entry_phase, Full.finishTick, Full.openPosition] at h
  split at h
  case isTrue hA =>
    rw [Option.some_inj] at h
    obtain ⟨rfl, rfl⟩ := Prod.mk.inj h
    simp only [Full.run]
    rw [if_pos hA]
  case isFalse h1 =>
    split at h
    case isTrue hB =>
      rw [Option.some_inj] at h
      obtain ⟨rfl, rfl⟩ := Prod.mk.inj h
      simp only [Full.run]
      rw [if_neg h1, if_pos hB]
    case isFalse h2 =>
      split at h
      case h_1 hPnone =>
        rw [Option.some_inj] at h
        obtain ⟨rfl, rfl⟩ := Prod.mk.inj h
        simp only [Full.run]
        rw [if_neg h1, if_neg h2, hPnone]
      case h_2 params hparams =>
        split at h
        case h_1 => simp at h
        case h_2 tr htr =>
          split at h
          case h_1 htrendnone =>
            rw [Option.some_inj] at h
            obtain ⟨rfl, rfl⟩ := Prod.mk.inj h
            simp only [Full.run]
            rw [if_neg h1]
            split
            · rfl
            · case isFalse hcond => exact absurd trivial hcond
          case h_2 trend htrend =>
            split at h
            case isFalse hlenF =>
              rw [Option.some_inj] at h
              obtain ⟨rfl, rfl⟩ := Prod.mk.inj h
              simp only [Full.run]
              rw [if_neg h1]
              split
              · rfl
              · case isFalse hcond => exact absurd trivial hcond
            case isTrue hlen =>
              split at h
              case h_1 => simp at h
              case h_2 pr hpr =>
                set X : Full.State :=
                  { s with
                    active_positions := (Core.manage_existing_positions s.active_positions
                      (Full.tickBar t).close (Full.tickBar t).high (Full.tickBar t).low).1,
                    total_allocation := s.total_allocation +
                      (Core.manage_existing_positions s.active_positions
                        (Full.tickBar t).close (Full.tickBar t).high
                        (Full.tickBar t).low).2,
                    total_risk := tr } with hX
                have hb : ¬(some (Full.tickBar t).date =
                    (Full.can_add_position X (Full.tickBar t).date pr).1.last_processed_date) := by
                  rw [(Full.can_add_frame X (Full.tickBar t).date pr).2.2.2]
                  exact h2
                have hactX : (Full.can_add_position X
                    (Full.tickBar t).date pr).1.active_positions =
                    (Core.manage_existing_positions s.active_positions (Full.tickBar t).close
                      (Full.tickBar t).high (Full.tickBar t).low).1 :=
                  (Full.can_add_frame X (Full.tickBar t).date pr).1
                have hd : Core.manage_existing_positions
                    (Full.can_add_position X (Full.tickBar t).date pr).1.active_positions
                    (Full.tickBar t).close (Full.tickBar t).high (Full.tickBar t).low =
                    ((Full.can_add_position X (Full.tickBar t).date pr).1.active_positions,
                      0) := by
                  rw [hactX]
                  exact Core.manage_idem s.active_positions (Full.tickBar t).close
                    (Full.tickBar t).high (Full.tickBar t).low
                have he : Full.sumRisks
                    (Full.can_add_position X (Full.tickBar t).date pr).1.active_positions =
                    some (Full.can_add_position X (Full.tickBar t).date pr).1.total_risk := by
                  rw [hactX, htr, (Full.can_add_frame X (Full.tickBar t).date pr).2.2.1]
                have hlenX : (Full.can_add_position X
                    (Full.tickBar t).date pr).1.active_positions.length <
                    Full.max_positions := by
                  rw [hactX]
                  exact hlen
                split at h
                case isTrue hca =>
                  rw [Option.some_inj] at h
                  obtain ⟨rfl, rfl⟩ := Prod.mk.inj h
                  rw [Full.run_eval_steady h1 hb hparams hd he, htrend]
                  simp only [Full.entry_phase]
                  rw [if_pos hlenX, hpr]
                  simp only []
                  rw [Full.can_add_idem, if_pos hca]
                case isFalse hcaF =>
                  split at h
                  case isTrue hcnt =>
                    rw [Option.some_inj] at h
                    obtain ⟨rfl, rfl⟩ := Prod.mk.inj h
                    rw [Full.run_eval_steady h1 hb hparams hd he, htrend]
                    simp only [Full.entry_phase]
                    rw [if_pos hlenX, hpr]
                    simp only []
                    rw [Full.can_add_idem, if_neg hcaF, if_pos hcnt]
                  case isFalse hcntF =>
                    split at h
                    case isTrue hopen =>
                      rw [Option.some_inj] at h
                      obtain ⟨rfl, rfl⟩ := Prod.mk.inj h
                      simp only [Full.run]
                      rw [if_neg h1]
                      split
                      · rfl
                      · case isFalse hcond => exact absurd trivial hcond
                    case isFalse hopenF =>
                      rw [Option.some_inj] at h
                      obtain ⟨rfl, rfl⟩ := Prod.mk.inj h
                      simp only [Full.run]
                      rw [if_neg h1]
                      split
                      · rfl
                      · case isFalse hcond => exact absurd trivial hcond

/-- Idempotence of the fixed-parameter variant's `run`: every non-dedup,
non-short-history tick records the bar date, so the second call of the same
bar is deduplicated; the short-history and duplicate branches leave the state
untouched. -/
theorem simple_run_idem :
    ∀ (s : Simple.State) (ohlcv : List Simple.Bar) (s₁ : Simple.State) (o : ℚ),
      Simple.run s ohlcv = (s₁, o) → Simple.run s₁ ohlcv = (s₁, o) := by
  intro s oh s₁ o h
  simp only [Simple.run] at h
  split at h
  case isTrue hA =>
    obtain ⟨rfl, rfl⟩ := Prod.mk.inj h
    simp only [Simple.run]
    rw [if_pos hA]
  case isFalse h1 =>
    split at h
    case isTrue hB =>
      obtain ⟨rfl, rfl⟩ := Prod.mk.inj h
      simp only [Simple.run]
      rw [if_neg h1, if_pos hB]
    case isFalse h2 =>
      obtain ⟨rfl, rfl⟩ := Prod.mk.inj h
      simp only [Simple.run]
      rw [if_neg h1]
      split
      · rfl
      · case isFalse hcond => exact absurd trivial hcond

/-- C8.  Duplicate-tick idempotence, in both variants: whatever `run` returned
on a bar, calling `run` again on the same bar from the resulting state
returns the same allocation and leaves the engine state exactly as it was —
either the dedup check fires (`last_processed_date` was set at the end of the
first call), or the first call rejected the entry and the second call
re-processes to the same rejection (exits a no-op, risk recomputation
unchanged, `can_add_position` verdict unchanged). -/
theorem duplicate_tick_idempotent :
    (∀ (s : Full.State) (t : Full.Tick) (s₁ : Full.State) (o : ℚ),
      Full.run s t = some (s₁, o) → Full.run s₁ t = some (s₁, o)) ∧
    (∀ (s : Simple.State) (ohlcv : List Simple.Bar) (s₁ : Simple.State) (o : ℚ),
      Simple.run s ohlcv = (s₁, o) → Simple.run s₁ ohlcv = (s₁, o)) :=
  ⟨full_run_idem, simple_run_idem⟩

/-- C10.  Dedup-key gap: `last_processed_date` is updated (to the bar's date)
exactly on ticks that run to the end of `run`; a tick whose entry attempt is
rejected by `can_add_position` or by the per-direction cap returns early with
`last_processed_date` unchanged, so the same bar key is re-processed rather
than deduplicated on the next call. -/
theorem dedup_key_gap :
    ∀ (s : Full.State) (t : Full.Tick) (s' : Full.State) (o : ℚ),
      Full.run s t = some (s', o) →
      s'.last_processed_date =
        (if Full.end_reached s t then some (Full.tickBar t).date
         else s.last_processed_date) := by
  intro s t s' o h
  simp only [Full.run, Full.entry_phase, Full.finishTick, Full.openPosition] at h
  split at h
  case isTrue hA =>
    rw [Option.some_inj] at h
    obtain ⟨rfl, rfl⟩ := Prod.mk.inj h
    simp [Full.end_reached, hA]
  case isFalse h1 =>
    split at h
    case isTrue hB =>
      rw [Option.some_inj] at h
      obtain ⟨rfl, rfl⟩ := Prod.mk.inj h
      simp [Full.end_reached, h1, hB]
    case isFalse h2 =>
      split at h
      case h_1 hPnone =>
        rw [Option.some_inj] at h
        obtain ⟨rfl, rfl⟩ := Prod.mk.inj h
        simp [Full.end_reached, h1, h2, hPnone]
      case h_2 params hparams =>
        split at h
        case h_1 => simp at h
        case h_2 tr htr =>
          split at h
          case h_1 htrendnone =>
            rw [Option.some_inj] at h
            obtain ⟨rfl, rfl⟩ := Prod.mk.inj h
            simp [Full.end_reached, h1, h2, hparams, htr, htrendnone]
          case h_2 trend htrend =>
            split at h
            case isFalse hlenF =>
              rw [Option.some_inj] at h
              obtain ⟨rfl, rfl⟩ := Prod.mk.inj h
              simp [Full.end_reached, h1, h2, hparams, htr, htrend, hlenF]
            case isTrue hlen =>
              split at h
              case h_1 => simp at h
              case h_2 pr hpr =>
                split at h
                case isTrue hca =>
                  rw [Option.some_inj] at h
                  obtain ⟨rfl, rfl⟩ := Prod.mk.inj h
                  rw [(Full.can_add_frame _ _ _).2.2.2]
                  simp [Full.end_reached, h1, h2, hparams, htr, htrend, hlen, hpr, hca]
                case isFalse hcaF =>
                  split at h
                  case isTrue hcnt =>
                    rw [Option.some_inj] at h
                    obtain ⟨rfl, rfl⟩ := Prod.mk.inj h
                    rw [(Full.can_add_frame _ _ _).2.2.2]
                    simp [Full.end_reached, h1, h2, hparams, htr, htrend, hlen, hpr,
                      hcaF, hcnt]
                  case isFalse hcntF =>
                    split at h
                    case isTrue hopen =>
                      rw [Option.some_inj] at h
                      obtain ⟨rfl, rfl⟩ := Prod.mk.inj h
                      simp [Full.end_reached, h1, h2, hparams, htr, htrend, hlen, hpr,
                        hcaF, hcntF]
                    case isFalse hopenF =>
                      rw [Option.some_inj] at h
                      obtain ⟨rfl, rfl⟩ := Prod.mk.inj h
                      simp [Full.end_reached, h1, h2, hparams, htr, htrend, hlen, hpr,
                        hcaF, hcntF]

/-- Two bars for the fixed-parameter variant: a warm-up bar and a bullish bar
on day "s1" (open 100, close 101). -/
def sbar0 : Simple.Bar := ⟨"s0", 0, 0, 0, 0⟩

def sbar1 : Simple.Bar := ⟨"s1", 100, 105, 95, 101⟩

/-- The state after the fixed-parameter variant processes `[sbar0, sbar1]`
from its initial state: one Long leg at 101 of size 1/100. -/
def sState : Simple.State := ⟨[⟨101, 1/100, Dir.bullish, 509/5, 81⟩], 1/100, some "s1"⟩

theorem srun_good : Simple.run Simple.initState [sbar0, sbar1] = (sState, 1/100) := by
  norm_num [Simple.run, Simple.initState, sbar0, sbar1, sState, Simple.determine_trend,
    Simple.should_open_new_position, Simple.calculate_position_allocation,
    Simple.adjust_take_profits, Simple.max_positions, Simple.adjustment_threshold,
    Simple.initial_allocation, Simple.tp_distance, Simple.sl_distance,
    Core.manage_eq_filter, Core.closes, Core.exitReason, List.getLastD,
    Option.some_ne_none, ne_eq]

theorem duplicate_tick_idempotent_witness :
    Full.run goodState goodTick = some (goodState, 999/1000) ∧
    Simple.run sState [sbar0, sbar1] = (sState, 1/100) :=
  ⟨duplicate_tick_idempotent.1 Full.initState goodTick goodState (999/1000) run_good,
   duplicate_tick_idempotent.2 Simple.initState [sbar0, sbar1] sState (1/100) srun_good⟩

/-- A state already at the daily cap on day "d1", with no processed bar key. -/
def rejState : Full.State := ⟨[], 0, 3, some "d1", none, 0⟩

theorem canadd_rej : Full.can_add_position ⟨[], 0, 3, some "d1", none, 0⟩
    goodBar.date 0 = (⟨[], 0, 3, some "d1", none, 0⟩, false) := by
  norm_num [Full.can_add_position, goodBar, dayOf_d1, Full.max_daily_positions,
    Full.max_total_risk, Option.some_ne_none, ne_eq]

/-- On `goodTick`, the state at the daily cap is rejected by
`can_add_position`: `run` returns early with the state unchanged (and
`last_processed_date` still `none`). -/
theorem run_reject : Full.run rejState goodTick = some (rejState, 0) := by
  have e3 : ¬(some goodBar.date = rejState.last_processed_date) := by
    simp [goodBar, rejState]
  have e5 : Core.manage_existing_positions rejState.active_positions goodBar.close
      goodBar.high goodBar.low = ([], 0) := by
    simp [rejState, Core.manage_eq_filter]
  have e6 : Full.sumRisks [] = some 0 := rfl
  simp only [Full.run, if_neg len_good, tickBar_good, if_neg e3, params_good, e5]
  norm_num [rejState]
  simp only [e6]
  norm_num [trend_good, Full.entry_phase, Full.max_positions]
  simp only [risk_good]
  simp only [canadd_rej]
  norm_num [rejState]

theorem dedup_key_gap_witness :
    rejState.last_processed_date =
      (if Full.end_reached rejState goodTick then some (Full.tickBar goodTick).date
       else rejState.last_processed_date) :=
  dedup_key_gap rejState goodTick rejState 0 run_reject
